import Mathlib

/-!
# tpsdrawer: day partitioning, slice aggregation and calendar layout

A shallow embedding of `tpsdrawer.go` (`DrawTPS`, `analyzeTPS`, `measureDay`,
`truncateTime`, `getWeekNum`) and of `example/main.go` (`percentileSlice`),
followed by the properties proved about them.

Conventions of the embedding.

* A `time.Time` is read as a UTC instant and represented by the number of
  nanoseconds since the Unix epoch (an `Int`; Go's `time.Time` does not wrap in
  any range that matters here).  `After`/`Before` are the strict orders.  The
  methods of package `time` that the code calls (`Date`, `Month`, `Day`,
  `Weekday`, `ISOWeek`, `time.Date`, `AddDate`) are modelled on the proleptic
  Gregorian calendar by the usual days-to-civil conversion and its inverse.
* A `float64` sample value is carried around untouched by the partitioning code,
  so the value type is a parameter `α`; the zero of `make([]float64, n)` is `0 : α`.
* Where the code does arithmetic on `float64` (`getWeekNum`, `percentileSlice`)
  a `float64` is the rational number it denotes and every operation rounds its
  exact result to the nearest binary64 value, ties to even (`f64Round`).
* A Go panic is `none` (`Option`) or an `Except.error` carrying the message.
-/

namespace TpsDrawer

/-! ## Time and the calendar (model of the parts of package `time` that are used) -/

/-! A `time.Time`, read as a UTC instant, is an `Int`: nanoseconds since
1970-01-01T00:00:00Z.  Package `time` has no leap seconds, so every UTC day is `nsPerDay`
long and day `z` begins at `z * nsPerDay`. -/

/-- The value `int64(time.Hour*24)`: nanoseconds in 24 hours. -/
def nsPerDay : Int := 86400000000000

/-- The method `t.After(u)`. -/
abbrev After (t u : Int) : Prop := u < t

/-- The method `t.Before(u)`. -/
abbrev Before (t u : Int) : Prop := t < u

/-- Number of the UTC calendar day that contains `t` (day 0 is 1970-01-01). -/
def dayIndex (t : Int) : Int := t / nsPerDay

/-- A civil (proleptic Gregorian) date. -/
structure Civil where
  year : Int
  month : Int
  day : Int
  deriving DecidableEq, Repr

/-- Civil date of a day number (days since 1970-01-01). -/
def civilFromDays (z0 : Int) : Civil :=
  let z := z0 + 719468
  let era := z / 146097
  let doe := z - era * 146097
  let yoe := (doe - doe / 1460 + doe / 36524 - doe / 146096) / 365
  let doy := doe - (365 * yoe + yoe / 4 - yoe / 100)
  let mp := (5 * doy + 2) / 153
  let d := doy - (153 * mp + 2) / 5 + 1
  let m := if mp < 10 then mp + 3 else mp - 9
  let y := yoe + era * 400
  ⟨if m ≤ 2 then y + 1 else y, m, d⟩

/-- Day number (days since 1970-01-01) of a civil date. -/
def daysFromCivil (y0 m d : Int) : Int :=
  let y := if m ≤ 2 then y0 - 1 else y0
  let era := y / 400
  let yoe := y - era * 400
  let mp := if m > 2 then m - 3 else m + 9
  let doy := (153 * mp + 2) / 5 + d - 1
  let doe := yoe * 365 + yoe / 4 - yoe / 100 + doy
  era * 146097 + doe - 719468

/-- The method `t.Date()` of a UTC time: the civil date of the day that contains `t`. -/
def Date (t : Int) : Civil := civilFromDays (dayIndex t)

/-- The call `time.Date(y, m, d, 0, 0, 0, 0, time.UTC)` for a civil date `y`-`m`-`d`
(month in `1..12`): the midnight that begins that day. -/
def midnightUTC (y m d : Int) : Int := daysFromCivil y m d * nsPerDay

/-- The method `t.Month()` (1 = January). -/
def Month (t : Int) : Int := (Date t).month

/-- The method `t.Day()`: day of the month. -/
def Day (t : Int) : Int := (Date t).day

/-- The method `t.Weekday()`: 0 = Sunday, ..., 6 = Saturday (1970-01-01 was a Thursday). -/
def Weekday (t : Int) : Int := (dayIndex t + 4) % 7

/-- The method `Month.String()`. -/
def monthString (m : Int) : String :=
  if m = 1 then "January" else if m = 2 then "February" else if m = 3 then "March"
  else if m = 4 then "April" else if m = 5 then "May" else if m = 6 then "June"
  else if m = 7 then "July" else if m = 8 then "August" else if m = 9 then "September"
  else if m = 10 then "October" else if m = 11 then "November" else if m = 12 then "December"
  else "%!Month"

/-- The method `t.ISOWeek()`: ISO 8601 year and week number, computed as package `time`
does: move to the Thursday of the Monday-based week of `t`, take its year and its
zero-based day of the year, and return `yday/7 + 1`. -/
def ISOWeek (t : Int) : Int × Int :=
  let d0 := 4 - Weekday t
  let d := if d0 = 4 then -3 else d0
  let th := dayIndex t + d
  let y := (civilFromDays th).year
  let yday := th - daysFromCivil y 1 1
  (y, yday / 7 + 1)

/-- The function `truncateTime`: `y, m, d := t.Date()` followed by
`time.Date(y, m, d, 0, 0, 0, 0, time.UTC)`. -/
def truncateTime (t : Int) : Int :=
  let c := Date t
  midnightUTC c.year c.month c.day

/-- The call `b.AddDate(0, 0, 1)` on a UTC midnight: the next midnight, 24 hours later. -/
def addDay (b : Int) : Int := b + nsPerDay

/-! ## binary64 arithmetic -/

/-- Binary logarithm rounded down, by repeated halving (`fuel` bounds the number of halvings). -/
def log2Fuel : Nat → Nat → Nat
  | 0, _ => 0
  | fuel + 1, n => if n < 2 then 0 else log2Fuel fuel (n / 2) + 1

/-- Binary logarithm of a natural number, rounded down (`0` for `0`). -/
def ilog2 (n : Nat) : Nat := log2Fuel n n

/-- Nearest binary64 value of the positive rational `n / d` (ties to even),
for values in the normal range. -/
def f64RoundPos (n d : Nat) : ℚ :=
  let e0 : Int := (ilog2 n : Int) - (ilog2 d : Int)
  let below : Bool :=
    if 0 ≤ e0 then decide (n < d * 2 ^ e0.toNat) else decide (n * 2 ^ (-e0).toNat < d)
  let e : Int := if below then e0 - 1 else e0
  let k : Int := 52 - e
  let n1 : Nat := if 0 ≤ k then n * 2 ^ k.toNat else n
  let d1 : Nat := if 0 ≤ k then d else d * 2 ^ (-k).toNat
  let m := n1 / d1
  let r := n1 % d1
  let m1 : Nat := if d1 < 2 * r ∨ (2 * r = d1 ∧ m % 2 = 1) then m + 1 else m
  if 0 ≤ k then (m1 : ℚ) / ((2 ^ k.toNat : Nat) : ℚ) else (m1 : ℚ) * ((2 ^ (-k).toNat : Nat) : ℚ)

/-- Rounding of an exact result to binary64: round to nearest, ties to even
(overflow and subnormal results are out of the modelled range). -/
def f64Round (q : ℚ) : ℚ :=
  if q = 0 then 0
  else if 0 < q then f64RoundPos q.num.natAbs q.den
  else - f64RoundPos q.num.natAbs q.den

/-- The function `math.Round`: nearest integer (as a `float64`), halves away from zero. -/
def mathRound (x : ℚ) : ℚ :=
  if 0 ≤ x then ((⌊x + 1 / 2⌋ : Int) : ℚ) else - ((⌊-x + 1 / 2⌋ : Int) : ℚ)

/-- The conversion `int64(x)` of a `float64`: truncation toward zero. -/
def truncToInt (x : ℚ) : Int :=
  if 0 ≤ x then ⌊x⌋ else - ⌊-x⌋

/-- The function `getWeekNum`: `w + int(math.Round(float64(y)*52.1429))` with
`y, w := t.ISOWeek()`.  The constant and the product are rounded to binary64. -/
def getWeekNum (t : Int) : Int :=
  let yw := ISOWeek t
  yw.2 + truncToInt (mathRound (f64Round (f64Round (yw.1 : ℚ) * f64Round (521429 / 10000))))

/-! ## The forward-cursor scans of `analyzeTPS` and `measureDay` -/

/-- What an inner `for i := skip; i < len(tpsK); i++` loop has collected: the appended
timestamps (`dk`, kept by `analyzeTPS` only), the appended values (`dv` in `analyzeTPS`,
`a` in `measureDay`), the cursor `skip`, and, as a ghost field, the indices `i` appended. -/
structure Scan (α : Type) where
  dk : List Int
  dv : List α
  idx : List Nat
  skip : Nat

/-- The inner loop shared, statement for statement, by `analyzeTPS` (window `b`, `nb`) and
`measureDay` (window `current`, `nc`), run from index `i` on the remaining timestamps `tpsK[i:]`
and values `tpsV[i:]`:
`if tpsK[i].After(hi) break`, then
`if tpsK[i].After(lo) && tpsK[i].Before(hi)` append sample `i` and set `skip = i`.
Reading `tpsV[i]` beyond the end of `tpsV` panics (`none`). -/
def scanWindow {α : Type} (lo hi : Int) : List Int → List α → Nat → Scan α → Option (Scan α)
  | [], _, _, st => some st
  | v :: ks, vs, i, st =>
    if After v hi then some st
    else if After v lo ∧ Before v hi then
      match vs with
      | [] => none
      | x :: vs1 =>
        scanWindow lo hi ks vs1 (i + 1)
          { dk := st.dk ++ [v], dv := st.dv ++ [x], idx := st.idx ++ [i], skip := i }
    else scanWindow lo hi ks vs.tail (i + 1) st

/-- One run of the inner loop from the cursor `skip`, with fresh collections. -/
def scanFrom {α : Type} (tpsK : List Int) (tpsV : List α) (lo hi : Int) (skip : Nat) :
    Option (Scan α) :=
  scanWindow lo hi (tpsK.drop skip) (tpsV.drop skip) skip { dk := [], dv := [], idx := [], skip := skip }

/-! ## `measureDay` -/

/-- The loop `for s := 0; s < dayWidth; s++` of `measureDay`, with `n` iterations left. -/
def measureLoop {α : Type} (measureFunc : List α → α) (tpsK : List Int) (tpsV : List α)
    (sample : Int) : Nat → Nat → Int → Nat → List α → Option (List α)
  | 0, _, _, _, ret => some ret
  | n + 1, s, current, skip, ret =>
    let nc := current + sample
    match scanFrom tpsK tpsV current nc skip with
    | none => none
    | some st => measureLoop measureFunc tpsK tpsV sample n (s + 1) nc st.skip (ret.set s (measureFunc st.dv))

/-- The function `measureDay`.  `make([]float64, dayWidth)` panics for a negative length and
`int64(time.Hour*24) / int64(dayWidth)` panics for `dayWidth = 0`. -/
def measureDay {α : Type} [Zero α] (tpsK : List Int) (tpsV : List α) (begin : Int)
    (dayWidth : Int) (measureFunc : List α → α) : Option (List α) :=
  if dayWidth < 0 then none
  else
    let ret : List α := List.replicate dayWidth.toNat 0
    if tpsK.length = 0 then some ret
    else if dayWidth = 0 then none
    else
      let sample := nsPerDay / dayWidth
      measureLoop measureFunc tpsK tpsV sample dayWidth.toNat 0 begin 0 ret

/-! ## `analyzeTPS` -/

/-- The struct `measuredDay`. -/
structure measuredDay (α : Type) where
  t : Int
  vals : List α

/-- A `measuredDay` together with the lists `dk`, `dv` that were handed to `measureDay`
for it and the indices of the samples in them (ghost data). -/
structure DayTrace (α : Type) where
  t : Int
  vals : List α
  dk : List Int
  dv : List α
  idx : List Nat

/-- The outer `for` loop of `analyzeTPS`, from the day start `b` with cursor `skip` and the
days `m` produced so far; `e` is the last timestamp. -/
def analyzeLoop {α : Type} [Zero α] (tpsK : List Int) (tpsV : List α) (dayWidth : Int)
    (measureFunc : List α → α) (e : Int) (b : Int) (skip : Nat) (m : List (DayTrace α)) :
    Option (List (DayTrace α)) :=
  if h : After b e then some m
  else
    let nb := addDay b
    match scanFrom tpsK tpsV b nb skip with
    | none => none
    | some st =>
      match measureDay st.dk st.dv b dayWidth measureFunc with
      | none => none
      | some vals =>
        analyzeLoop tpsK tpsV dayWidth measureFunc e nb st.skip
          (m ++ [{ t := b, vals := vals, dk := st.dk, dv := st.dv, idx := st.idx }])
termination_by (e - b + 1).toNat
decreasing_by
  revert h
  simp only [addDay, nsPerDay]
  intro h
  omega

/-- The function `analyzeTPS` with the ghost data of every day kept.
`tpsK[0]` panics on an empty `tpsK`. -/
def analyzeTrace {α : Type} [Zero α] (tpsK : List Int) (tpsV : List α) (dayWidth : Int)
    (measureFunc : List α → α) : Option (List (DayTrace α)) :=
  match tpsK.head?, tpsK.getLast? with
  | some t0, some e => analyzeLoop tpsK tpsV dayWidth measureFunc e (truncateTime t0) 0 []
  | _, _ => none

/-- The function `analyzeTPS`. -/
def analyzeTPS {α : Type} [Zero α] (tpsK : List Int) (tpsV : List α) (dayWidth : Int)
    (measureFunc : List α → α) : Option (List (measuredDay α)) :=
  (analyzeTrace tpsK tpsV dayWidth measureFunc).map
    (List.map (fun d => { t := d.t, vals := d.vals }))

/-! ## `DrawTPS`: the parts that decide failures, sizing and placement -/

/-- The fields of `DrawOptions` read by the modelled parts of `DrawTPS`
(`DayW` is a `uint`; colours, font, padding and the other pixel sizes are not modelled). -/
structure DrawOptions (α : Type) where
  DayW : Nat
  BreakMonths : Bool
  BreakMonday : Bool
  MeasureFunc : List α → α

/-- The conversion `int(x)` of a `uint` (64 bits, two's complement). -/
def uintToInt (x : Nat) : Int :=
  if x % 2 ^ 64 < 2 ^ 63 then ((x % 2 ^ 64 : Nat) : Int) else ((x % 2 ^ 64 : Nat) : Int) - 2 ^ 64

/-- State of the sizing pre-pass: `currMonth` and `monthRows`. -/
structure PreState where
  currMonth : String
  monthRows : Nat

/-- Body of the sizing pre-pass loop `for _, d := range days` (lines 47-60). -/
def preStep {α : Type} (opts : DrawOptions α) (st : PreState) (d : measuredDay α) : PreState :=
  if st.currMonth ≠ monthString (Month d.t) then
    let st1 : PreState := { st with currMonth := monthString (Month d.t) }
    if opts.BreakMonths then
      if opts.BreakMonday then
        if Weekday d.t ≠ 0 then { st1 with monthRows := st1.monthRows + 1 } else st1
      else { st1 with monthRows := st1.monthRows + 1 }
    else st1
  else st

/-- The value of `monthRows` used for the image height (lines 44-64); `first` is `tpsK[0]`. -/
def sizingMonthRows {α : Type} (opts : DrawOptions α) (first : Int) (days : List (measuredDay α)) :
    Nat :=
  let monthRows :=
    if opts.BreakMonths then
      (days.foldl (preStep opts) { currMonth := "", monthRows := 0 }).monthRows
    else 0
  if Day first ≠ 1 then monthRows + 1 else monthRows

/-- A day cell as placed by the main pass: row `rowN`, weekday column `kw` (0 = Monday),
and the day start. -/
structure Cell where
  row : Nat
  col : Int
  t : Int
  deriving DecidableEq, Repr

/-- State of the main placement pass: `currWeek`, `rowN`, `currMonth`, the cells placed so
far and, as a ghost counter, the number of times the month-change branch incremented `rowN`. -/
structure PlaceState where
  currWeek : Int
  rowN : Nat
  currMonth : String
  monthBreaks : Nat
  cells : List Cell

/-- Body of the main placement loop `for _, d := range days` (lines 96-150), without the
drawing calls. -/
def placeStep {α : Type} (opts : DrawOptions α) (st : PlaceState) (d : measuredDay α) :
    PlaceState :=
  let k := d.t
  let kwn := getWeekNum k
  let kw := if Weekday k = 0 then 6 else Weekday k - 1
  let st1 : PlaceState :=
    if kwn ≠ st.currWeek then { st with currWeek := kwn, rowN := st.rowN + 1 } else st
  let st2 : PlaceState :=
    if st1.currMonth ≠ monthString (Month k) then
      let st3 : PlaceState := { st1 with currMonth := monthString (Month k) }
      if opts.BreakMonths then
        if opts.BreakMonday then
          if kw ≠ 0 then { st3 with rowN := st3.rowN + 1, monthBreaks := st3.monthBreaks + 1 }
          else st3
        else { st3 with rowN := st3.rowN + 1, monthBreaks := st3.monthBreaks + 1 }
      else st3
    else st1
  { st2 with cells := st2.cells ++ [{ row := st2.rowN, col := kw, t := k }] }

/-- The main placement pass (lines 91-150); `first` is `tpsK[0]`. -/
def mainPass {α : Type} (opts : DrawOptions α) (first : Int) (days : List (measuredDay α)) :
    PlaceState :=
  days.foldl (placeStep opts)
    { currWeek := getWeekNum first, rowN := 0, currMonth := monthString (Month first),
      monthBreaks := 0, cells := [] }

/-- What a successful run of `DrawTPS` has computed before and while drawing: the measured
days, `monthRows`, the number of rows `len(days)/7 + monthRows` the height `imgH` is sized
for, and the final state of the placement pass. -/
structure Drawing (α : Type) where
  days : List (measuredDay α)
  monthRows : Nat
  sizedRows : Nat
  place : PlaceState

/-- The function `DrawTPS`, up to the pixels: the two precondition panics, then
`analyzeTPS`, the sizing pre-pass and the placement pass.  A runtime panic inside
`analyzeTPS` is reported as `runtime error`. -/
def DrawTPS {α : Type} [Zero α] (tpsK : List Int) (tpsV : List α) (opts : DrawOptions α) :
    Except String (Drawing α) :=
  if tpsK.length ≠ tpsV.length then Except.error "tpsK and tpsV not same length"
  else
    match tpsK with
    | [] => Except.error "Nothing to draw"
    | first :: rest =>
      match analyzeTPS (first :: rest) tpsV (uintToInt opts.DayW) opts.MeasureFunc with
      | none => Except.error "runtime error"
      | some days =>
        let monthRows := sizingMonthRows opts first days
        Except.ok
          { days := days, monthRows := monthRows, sizedRows := days.length / 7 + monthRows,
            place := mainPass opts first days }

/-! ## `percentileSlice` (example/main.go) -/

/-- Indexing `c[i]` of a slice with an `int` index; out of range panics (`none`). -/
def sliceAt (c : List ℚ) (i : Int) : Option ℚ :=
  if i < 0 then none else c.get? i.toNat

/-- The value `index := (percent / 100) * float64(len(c))` with `percent = 1.0`. -/
def percentileIndex (n : Nat) : ℚ :=
  f64Round (f64Round (1 / 100) * f64Round (n : ℚ))

/-- The function `percentileSlice`; `sort.Float64s` is a sort into non-decreasing order. -/
def percentileSlice (c : List ℚ) : Option ℚ :=
  if c.length = 0 then some 0
  else if c.length = 1 then sliceAt c 0
  else
    let c := c.insertionSort (fun x y => x ≤ y)
    let index := percentileIndex c.length
    if index = ((truncToInt index : Int) : ℚ) then
      let i := truncToInt index
      sliceAt c (i - 1)
    else if 1 < index then
      let i := truncToInt index
      match sliceAt c (i - 1), sliceAt c i with
      | some x, some y => some (f64Round (x + f64Round (y / f64Round (c.length : ℚ))))
      | _, _ => none
    else some 0

/-! ## Specification-side definitions and invariants used in the statements -/

/-- Membership of a timestamp in the open window `(lo, hi)`. -/
def inWindow (lo hi : Int) (t : Int) : Bool := decide (lo < t ∧ t < hi)

/-- The values, in input order, of exactly those samples whose timestamp lies strictly
inside `(lo, hi)`: a filter over the whole sample list. -/
def windowValues {α : Type} (tpsK : List Int) (tpsV : List α) (lo hi : Int) : List α :=
  ((tpsK.zip tpsV).filter (fun p => inWindow lo hi p.1)).map Prod.snd

/-- The timestamps of the samples strictly inside `(lo, hi)`. -/
def windowKeys (tpsK : List Int) (lo hi : Int) : List Int :=
  tpsK.filter (fun t => inWindow lo hi t)

/-- Slice `s` of the day starting at `b` with slice width `w`, as the specification words
it: the reducer applied to the values of the samples strictly inside
`(b + s*w, b + (s+1)*w)`. -/
def sliceSpec {α : Type} (measureFunc : List α → α) (tpsK : List Int) (tpsV : List α)
    (b w : Int) (s : Nat) : α :=
  measureFunc (windowValues tpsK tpsV (b + (s : Int) * w) (b + ((s : Int) + 1) * w))

/-- The specification of `measureDay`: every slice computed by filtering the whole day;
the width is `24h / dayWidth` in whole nanoseconds. -/
def measureDaySpec {α : Type} (measureFunc : List α → α) (tpsK : List Int) (tpsV : List α)
    (b : Int) (dayWidth : Int) : List α :=
  (List.range dayWidth.toNat).map (sliceSpec measureFunc tpsK tpsV b (nsPerDay / dayWidth))

/-- Number of iterations of the outer loop of `analyzeTPS` from day start `b`. -/
def loopDays (e b : Int) : Nat := ((e - b) / nsPerDay + 1).toNat

/-- The fields of the placement state that do not depend on `BreakMonths` agree, and rows of
the run without month breaks are bounded by the rows of the run with them. -/
def RowsLe (a b : PlaceState) : Prop :=
  a.currWeek = b.currWeek ∧ a.currMonth = b.currMonth ∧ a.rowN ≤ b.rowN ∧
    List.Forall₂ (fun c d => c.row ≤ d.row ∧ c.col = d.col ∧ c.t = d.t) a.cells b.cells

/-- Within one run the rows of the cells placed so far are non-decreasing and bounded by
`rowN`. -/
def RowsSorted (st : PlaceState) : Prop :=
  (st.cells.map (fun c => c.row)).Pairwise (fun x y => x ≤ y) ∧ ∀ c ∈ st.cells, c.row ≤ st.rowN

/-- With `BreakMonths` and without `BreakMonday` the pre-pass and the placement pass agree
on the current month, and the pre-pass is one row ahead. -/
def LockStep (p : PreState) (st : PlaceState) : Prop :=
  p.currMonth = st.currMonth ∧ p.monthRows = st.monthBreaks + 1

/-- The rows and weekday columns of the cells placed by a run of `DrawTPS`. -/
def placedAt {α : Type} (r : Except String (Drawing α)) : Option (List (Nat × Int)) :=
  r.toOption.map (fun d => d.place.cells.map (fun c => (c.row, c.col)))

/-- The number of rows the height is sized for and the number of rows holding cells
(`rowN + 1`) of a run of `DrawTPS`. -/
def sizedAndUsedRows {α : Type} (r : Except String (Drawing α)) : Option (Nat × Nat) :=
  r.toOption.map (fun d => (d.sizedRows, d.place.rowN + 1))

/-- The value of `monthRows` and the number of month-change increments of `rowN` of a run of
`DrawTPS`. -/
def monthRowsAndBreaks {α : Type} (r : Except String (Drawing α)) : Option (Nat × Nat) :=
  r.toOption.map (fun d => (d.monthRows, d.place.monthBreaks))

/-! # Properties -/

/-! ## The calendar: `truncateTime` is the midnight at or below `t` -/

theorem yoe_bounds (doe : Int) (h0 : 0 ≤ doe) (h1 : doe ≤ 146096) :
    0 ≤ (doe - doe / 1460 + doe / 36524 - doe / 146096) / 365 ∧
    (doe - doe / 1460 + doe / 36524 - doe / 146096) / 365 ≤ 399 ∧
    0 ≤ doe - (365 * ((doe - doe / 1460 + doe / 36524 - doe / 146096) / 365) +
      (doe - doe / 1460 + doe / 36524 - doe / 146096) / 365 / 4 -
      (doe - doe / 1460 + doe / 36524 - doe / 146096) / 365 / 100) ∧
    doe - (365 * ((doe - doe / 1460 + doe / 36524 - doe / 146096) / 365) +
      (doe - doe / 1460 + doe / 36524 - doe / 146096) / 365 / 4 -
      (doe - doe / 1460 + doe / 36524 - doe / 146096) / 365 / 100) ≤ 365 := by
  have ha0 : 0 ≤ doe / 1460 := by omega
  have ha1 : doe / 1460 ≤ 100 := by omega
  have ha2 : 1460 * (doe / 1460) ≤ doe := by omega
  have ha3 : doe < 1460 * (doe / 1460) + 1460 := by omega
  generalize doe / 1460 = a at *
  interval_cases a <;> first
    | omega
    | (by_cases h : doe < 36524 <;> by_cases h' : doe < 73048 <;>
        by_cases h'' : doe < 109572 <;> omega)

/-- The day number of the civil date of a day number is that day number. -/
theorem daysFromCivil_civilFromDays (z : Int) :
    daysFromCivil (civilFromDays z).year (civilFromDays z).month (civilFromDays z).day = z := by
  have hdoe0 : 0 ≤ z + 719468 - (z + 719468) / 146097 * 146097 := by omega
  have hdoe1 : z + 719468 - (z + 719468) / 146097 * 146097 ≤ 146096 := by omega
  obtain ⟨b1, b2, b3, b4⟩ := yoe_bounds _ hdoe0 hdoe1
  simp only [civilFromDays, daysFromCivil]
  generalize hera : (z + 719468) / 146097 = era at *
  generalize hd : z + 719468 - era * 146097 = doe at *
  generalize (doe - doe / 1460 + doe / 36524 - doe / 146096) / 365 = yoe at *
  have hg : (yoe + era * 400) / 400 = era := by omega
  split_ifs <;> simp only [add_sub_cancel_right, sub_add_cancel, hg] <;> omega

/-- The function `truncateTime` rounds down to a multiple of 24 hours. -/
theorem truncateTime_eq (t : Int) : truncateTime t = dayIndex t * nsPerDay := by
  simp only [truncateTime, midnightUTC, Date, daysFromCivil_civilFromDays]

/-! ## The scan -/

theorem scanWindow_some {α : Type} (lo hi : Int) :
    ∀ (ks : List Int) (vs : List α) (i : Nat) (st : Scan α), ks.length ≤ vs.length →
      st.dk.length = st.dv.length →
      ∃ st1, scanWindow lo hi ks vs i st = some st1 ∧ st1.dk.length = st1.dv.length := by
  intro ks
  induction ks with
  | nil => intro vs i st _ h; exact ⟨st, by simp [scanWindow], h⟩
  | cons v ks ih =>
    intro vs i st hlen h
    cases vs with
    | nil => simp at hlen
    | cons x vs1 =>
      have hlen1 : ks.length ≤ vs1.length := by simpa using hlen
      unfold scanWindow
      by_cases h1 : After v hi
      · exact ⟨st, by simp [h1], h⟩
      · by_cases h2 : After v lo ∧ Before v hi
        · simp only [h1, h2, if_false, if_true, and_self]
          exact ih vs1 (i + 1) _ hlen1 (by simp [h])
        · simp only [h1, h2, if_false, List.tail_cons]
          exact ih vs1 (i + 1) st hlen1 h

theorem windowValues_nil_of_forall {α : Type} (lo hi : Int) :
    ∀ (ks : List Int) (vs : List α), (∀ t ∈ ks, inWindow lo hi t = false) →
      windowValues ks vs lo hi = [] := by
  intro ks vs h
  unfold windowValues
  rw [List.map_eq_nil_iff, List.filter_eq_nil_iff]
  intro p hp
  have := h p.1 (List.of_mem_zip hp).1
  simp [this]

/-- On non-decreasing timestamps the scan collects exactly the samples of the window, and
the cursor it leaves behind has only timestamps below `hi` up to and including it. -/
theorem scanWindow_sorted {α : Type} (lo hi : Int) :
    ∀ (ks : List Int) (vs : List α) (i : Nat) (st : Scan α), ks.length = vs.length →
      ks.Pairwise (fun a b => a ≤ b) →
      ∃ st1, scanWindow lo hi ks vs i st = some st1 ∧
        st1.dv = st.dv ++ windowValues ks vs lo hi ∧
        st1.dk = st.dk ++ windowKeys ks lo hi ∧
        (st1.skip = st.skip ∨
          ∃ p, p < ks.length ∧ st1.skip = i + p ∧ ∀ t ∈ ks.take (p + 1), t < hi) := by
  intro ks
  induction ks with
  | nil =>
    intro vs i st _ _
    exact ⟨st, by simp [scanWindow], by simp [windowValues], by simp [windowKeys], Or.inl rfl⟩
  | cons v ks ih =>
    intro vs i st hlen hs
    cases vs with
    | nil => simp at hlen
    | cons x vs1 =>
      have hlen1 : ks.length = vs1.length := by simpa using hlen
      obtain ⟨hv, hs1⟩ := List.pairwise_cons.mp hs
      unfold scanWindow
      by_cases h1 : After v hi
      · refine ⟨st, by simp [h1], ?_, ?_, Or.inl rfl⟩
        · rw [windowValues_nil_of_forall]; simp
          intro t ht
          have h1' : hi < v := h1
          simp only [inWindow, decide_eq_false_iff_not, not_and, not_lt]
          intro _
          rcases List.mem_cons.mp ht with h | h
          · omega
          · have := hv t h; omega
        · have : windowKeys (v :: ks) lo hi = [] := by
            unfold windowKeys
            rw [List.filter_eq_nil_iff]
            intro t ht
            have h1' : hi < v := h1
            simp only [inWindow, decide_eq_true_eq, not_and, not_lt]
            intro _
            rcases List.mem_cons.mp ht with h | h
            · omega
            · have := hv t h; omega
          simp [this]
      · by_cases h2 : After v lo ∧ Before v hi
        · simp only [h1, h2, if_false, if_true, and_self]
          obtain ⟨st1, e1, e2, e3, e4⟩ := ih vs1 (i + 1)
            { dk := st.dk ++ [v], dv := st.dv ++ [x], idx := st.idx ++ [i], skip := i } hlen1 hs1
          have hw : inWindow lo hi v = true := by
            simp only [inWindow, decide_eq_true_eq]; exact h2
          refine ⟨st1, e1, ?_, ?_, ?_⟩
          · rw [e2]; simp [windowValues, List.filter_cons, hw]
          · rw [e3]; simp [windowKeys, List.filter_cons, hw]
          · right
            rcases e4 with e4 | ⟨p, hp, e5, e6⟩
            · refine ⟨0, by simp, by simpa using e4, ?_⟩
              intro t ht
              simp at ht
              rw [ht]; exact h2.2
            · refine ⟨p + 1, by simpa using hp, by omega, ?_⟩
              intro t ht
              rw [List.take_succ_cons] at ht
              rcases List.mem_cons.mp ht with h | h
              · rw [h]; exact h2.2
              · exact e6 t h
        · simp only [h1, h2, if_false, List.tail_cons]
          obtain ⟨st1, e1, e2, e3, e4⟩ := ih vs1 (i + 1) st hlen1 hs1
          have hw : inWindow lo hi v = false := by
            simp only [inWindow, decide_eq_false_iff_not]; exact h2
          refine ⟨st1, e1, ?_, ?_, ?_⟩
          · rw [e2]; simp [windowValues, List.filter_cons, hw]
          · rw [e3]; simp [windowKeys, List.filter_cons, hw]
          · rcases e4 with e4 | ⟨p, hp, e5, e6⟩
            · exact Or.inl e4
            · right
              refine ⟨p + 1, by simpa using hp, by omega, ?_⟩
              intro t ht
              rw [List.take_succ_cons] at ht
              rcases List.mem_cons.mp ht with h | h
              · rw [h]
                have h1' : ¬ hi < v := h1
                obtain ⟨t0, ht0⟩ : ∃ t0, t0 ∈ ks.take (p + 1) := by
                  cases ks with
                  | nil => simp at hp
                  | cons a ks2 => exact ⟨a, by simp⟩
                have := e6 t0 ht0
                have := hv t0 (List.mem_of_mem_take ht0)
                omega
              · exact e6 t h

theorem zip_drop_eq {α β : Type} (l : List α) (r : List β) (n : Nat) :
    (l.drop n).zip (r.drop n) = (l.zip r).drop n := by
  simp only [List.zip, List.drop_zipWith]

theorem zip_take_eq {α β : Type} (l : List α) (r : List β) (n : Nat) :
    (l.zip r).take n = (l.take n).zip (r.take n) := by
  simp only [List.zip, List.take_zipWith]

theorem windowValues_drop {α : Type} (tpsK : List Int) (tpsV : List α) (lo hi : Int) (skip : Nat)
    (h : ∀ t ∈ tpsK.take skip, t ≤ lo) :
    windowValues (tpsK.drop skip) (tpsV.drop skip) lo hi = windowValues tpsK tpsV lo hi := by
  unfold windowValues
  rw [zip_drop_eq]
  conv_rhs => rw [← List.take_append_drop skip (tpsK.zip tpsV)]
  rw [List.filter_append]
  have : List.filter (fun p => inWindow lo hi p.1) (List.take skip (tpsK.zip tpsV)) = [] := by
    rw [List.filter_eq_nil_iff]
    intro p hp
    rw [zip_take_eq] at hp
    have h1 := h p.1 (List.of_mem_zip hp).1
    simp only [inWindow, decide_eq_true_eq, not_and]
    intro h2; omega
  rw [this, List.nil_append]

theorem windowKeys_drop (tpsK : List Int) (lo hi : Int) (skip : Nat)
    (h : ∀ t ∈ tpsK.take skip, t ≤ lo) :
    windowKeys (tpsK.drop skip) lo hi = windowKeys tpsK lo hi := by
  unfold windowKeys
  conv_rhs => rw [← List.take_append_drop skip tpsK]
  rw [List.filter_append]
  have : List.filter (fun t => inWindow lo hi t) (List.take skip tpsK) = [] := by
    rw [List.filter_eq_nil_iff]
    intro t ht
    have h1 := h t ht
    simp only [inWindow, decide_eq_true_eq, not_and]
    intro h2; omega
  rw [this, List.nil_append]

/-- One scan from a cursor that has only timestamps `≤ lo` before it. -/
theorem scanFrom_sorted {α : Type} (tpsK : List Int) (tpsV : List α) (lo hi : Int) (skip : Nat)
    (hlen : tpsK.length = tpsV.length) (hs : tpsK.Pairwise (fun a b => a ≤ b))
    (hle : lo ≤ hi) (hinv : ∀ t ∈ tpsK.take skip, t ≤ lo) :
    ∃ st, scanFrom tpsK tpsV lo hi skip = some st ∧
      st.dv = windowValues tpsK tpsV lo hi ∧ st.dk = windowKeys tpsK lo hi ∧
      ∀ t ∈ tpsK.take st.skip, t ≤ hi := by
  have hs1 : (tpsK.drop skip).Pairwise (fun a b => a ≤ b) :=
    List.Pairwise.sublist (List.drop_sublist skip tpsK) hs
  obtain ⟨st, e1, e2, e3, e4⟩ := scanWindow_sorted lo hi (tpsK.drop skip) (tpsV.drop skip) skip
    { dk := [], dv := [], idx := [], skip := skip } (by simp [hlen]) hs1
  refine ⟨st, e1, ?_, ?_, ?_⟩
  · rw [e2, List.nil_append, windowValues_drop tpsK tpsV lo hi skip hinv]
  · rw [e3, List.nil_append, windowKeys_drop tpsK lo hi skip hinv]
  · rcases e4 with e4 | ⟨p, _, e5, e6⟩
    · intro t ht
      have e4' : st.skip = skip := e4
      rw [e4'] at ht
      have := hinv t ht; omega
    · intro t ht
      rw [e5, List.take_add] at ht
      rcases List.mem_append.mp ht with h | h
      · have := hinv t h; omega
      · have : t ∈ List.take (p + 1) (List.drop skip tpsK) :=
          (List.take_subset_take_left _ (Nat.le_succ p)) h
        have := e6 t this; omega

theorem measureLoop_spec {α : Type} (measureFunc : List α → α) (tpsK : List Int) (tpsV : List α)
    (b w : Int) (hw : 0 ≤ w) (hlen : tpsK.length = tpsV.length)
    (hs : tpsK.Pairwise (fun a b => a ≤ b)) :
    ∀ (n s : Nat) (skip : Nat) (ret : List α),
      (∀ t ∈ tpsK.take skip, t ≤ b + (s : Int) * w) →
      ∃ ret1, measureLoop measureFunc tpsK tpsV w n s (b + (s : Int) * w) skip ret = some ret1 ∧
        ret1.length = ret.length ∧
        ∀ j, ret1.get? j =
          if s ≤ j ∧ j < s + n ∧ j < ret.length then some (sliceSpec measureFunc tpsK tpsV b w j)
          else ret.get? j := by
  intro n
  induction n with
  | zero =>
    intro s skip ret _
    refine ⟨ret, by simp [measureLoop], rfl, ?_⟩
    intro j
    have : ¬ (s ≤ j ∧ j < s + 0 ∧ j < ret.length) := by omega
    rw [if_neg this]
  | succ n ih =>
    intro s skip ret hinv
    have hle : b + (s : Int) * w ≤ b + (s : Int) * w + w := by omega
    obtain ⟨st, e1, e2, _, e4⟩ :=
      scanFrom_sorted tpsK tpsV (b + (s : Int) * w) (b + (s : Int) * w + w) skip hlen hs hle hinv
    have hnext : b + (s : Int) * w + w = b + ((s + 1 : Nat) : Int) * w := by push_cast; ring
    rw [hnext] at e4
    obtain ⟨ret1, f1, f2, f3⟩ := ih (s + 1) st.skip (ret.set s (measureFunc st.dv)) e4
    refine ⟨ret1, ?_, ?_, ?_⟩
    · simp only [measureLoop, e1]
      rw [hnext]; exact f1
    · rw [f2, List.length_set]
    · intro j
      rw [f3 j, List.length_set]
      by_cases hj : j = s
      · subst hj
        have h1 : ¬ (j + 1 ≤ j ∧ j < j + 1 + n ∧ j < ret.length) := by omega
        rw [if_neg h1]
        by_cases h2 : j < ret.length
        · have h3 : j ≤ j ∧ j < j + (n + 1) ∧ j < ret.length := ⟨le_refl _, by omega, h2⟩
          rw [if_pos h3, List.get?_eq_getElem?, List.getElem?_set_self h2, e2]
          simp only [sliceSpec]
          have : b + (j : Int) * w + w = b + ((j : Int) + 1) * w := by ring
          rw [this]
        · have h3 : ¬ (j ≤ j ∧ j < j + (n + 1) ∧ j < ret.length) := by omega
          rw [if_neg h3, List.get?_eq_getElem?, List.get?_eq_getElem?]
          rw [List.getElem?_eq_none (by rw [List.length_set]; omega),
            List.getElem?_eq_none (by omega)]
      · have h4 : (List.set ret s (measureFunc st.dv)).get? j = ret.get? j := by
          rw [List.get?_eq_getElem?, List.get?_eq_getElem?, List.getElem?_set_ne (Ne.symm hj)]
        rw [h4]
        by_cases h5 : s + 1 ≤ j ∧ j < s + 1 + n ∧ j < ret.length
        · have h6 : s ≤ j ∧ j < s + (n + 1) ∧ j < ret.length := by omega
          rw [if_pos h5, if_pos h6]
        · have h6 : ¬ (s ≤ j ∧ j < s + (n + 1) ∧ j < ret.length) := by omega
          rw [if_neg h5, if_neg h6]

/-- On a non-empty day with non-decreasing timestamps `measureDay` returns the list the
specification describes. -/
theorem measureDay_eq_spec {α : Type} [Zero α] (measureFunc : List α → α) (tpsK : List Int)
    (tpsV : List α) (b : Int) (dayWidth : Int) (hN : 0 < dayWidth) (hne : tpsK ≠ [])
    (hlen : tpsK.length = tpsV.length) (hs : tpsK.Pairwise (fun a b => a ≤ b)) :
    measureDay tpsK tpsV b dayWidth measureFunc =
      some (measureDaySpec measureFunc tpsK tpsV b dayWidth) := by
  have hw : 0 ≤ nsPerDay / dayWidth := Int.ediv_nonneg (by decide) (le_of_lt hN)
  obtain ⟨ret1, f1, f2, f3⟩ := measureLoop_spec measureFunc tpsK tpsV b (nsPerDay / dayWidth) hw
    hlen hs dayWidth.toNat 0 0 (List.replicate dayWidth.toNat 0) (by simp)
  have h0 : b + ((0 : Nat) : Int) * (nsPerDay / dayWidth) = b := by simp
  rw [h0] at f1
  have hlen0 : tpsK.length ≠ 0 := by
    intro h; exact hne (List.length_eq_zero.mp h)
  unfold measureDay
  rw [if_neg (by omega), if_neg hlen0, if_neg (by omega)]
  simp only []
  rw [f1]
  congr 1
  apply List.ext_get?
  intro j
  rw [f3 j]
  simp only [measureDaySpec, List.length_replicate]
  by_cases hj : j < dayWidth.toNat
  · rw [if_pos ⟨Nat.zero_le _, by omega, hj⟩]
    rw [List.get?_eq_getElem?, List.getElem?_map, List.getElem?_range hj]
    rfl
  · rw [if_neg (by omega)]
    rw [List.get?_eq_getElem?, List.get?_eq_getElem?]
    rw [List.getElem?_eq_none (by simp; omega), List.getElem?_eq_none (by simp; omega)]

/-! ## Totality of `measureDay` and the day sequence of `analyzeTPS` -/

theorem scanFrom_some {α : Type} (tpsK : List Int) (tpsV : List α) (lo hi : Int) (skip : Nat)
    (hlen : tpsK.length = tpsV.length) :
    ∃ st, scanFrom tpsK tpsV lo hi skip = some st ∧ st.dk.length = st.dv.length := by
  unfold scanFrom
  exact scanWindow_some lo hi _ _ skip _ (by simp [hlen]) rfl

theorem measureLoop_some {α : Type} (measureFunc : List α → α) (tpsK : List Int) (tpsV : List α)
    (w : Int) (hlen : tpsK.length = tpsV.length) :
    ∀ (n s : Nat) (cur : Int) (skip : Nat) (ret : List α),
      ∃ ret1, measureLoop measureFunc tpsK tpsV w n s cur skip ret = some ret1 ∧
        ret1.length = ret.length := by
  intro n
  induction n with
  | zero => intro s cur skip ret; exact ⟨ret, by simp [measureLoop], rfl⟩
  | succ n ih =>
    intro s cur skip ret
    obtain ⟨st, e1, _⟩ := scanFrom_some tpsK tpsV cur (cur + w) skip hlen
    obtain ⟨ret1, f1, f2⟩ := ih (s + 1) (cur + w) st.skip (ret.set s (measureFunc st.dv))
    exact ⟨ret1, by simp only [measureLoop, e1]; exact f1, by rw [f2, List.length_set]⟩

/-- For a positive day width `measureDay` returns, and returns `dayWidth` scalars. -/
theorem measureDay_some {α : Type} [Zero α] (measureFunc : List α → α) (tpsK : List Int)
    (tpsV : List α) (b : Int) (dayWidth : Int) (hN : 0 < dayWidth)
    (hlen : tpsK.length = tpsV.length) :
    ∃ ret, measureDay tpsK tpsV b dayWidth measureFunc = some ret ∧
      ret.length = dayWidth.toNat := by
  unfold measureDay
  rw [if_neg (by omega)]
  by_cases h0 : tpsK.length = 0
  · rw [if_pos h0]; exact ⟨_, rfl, by simp⟩
  · rw [if_neg h0, if_neg (by omega)]
    obtain ⟨ret1, f1, f2⟩ := measureLoop_some measureFunc tpsK tpsV (nsPerDay / dayWidth) hlen
      dayWidth.toNat 0 b 0 (List.replicate dayWidth.toNat 0)
    exact ⟨ret1, f1, by rw [f2]; simp⟩

theorem analyzeLoop_days {α : Type} [Zero α] (tpsK : List Int) (tpsV : List α) (dayWidth : Int)
    (measureFunc : List α → α) (e : Int) (hN : 0 < dayWidth) (hlen : tpsK.length = tpsV.length) :
    ∀ (n : Nat) (b : Int) (skip : Nat) (m : List (DayTrace α)), n = loopDays e b →
      ∃ days, analyzeLoop tpsK tpsV dayWidth measureFunc e b skip m = some (m ++ days) ∧
        days.map (fun d => d.t) = (List.range n).map (fun (k : Nat) => b + (k : Int) * nsPerDay) := by
  intro n
  induction n with
  | zero =>
    intro b skip m hn
    have hb : After b e := by
      simp only [loopDays, nsPerDay] at hn
      show e < b
      omega
    refine ⟨[], ?_, by simp⟩
    rw [analyzeLoop, dif_pos hb, List.append_nil]
  | succ n ih =>
    intro b skip m hn
    have hb : ¬ After b e := by
      simp only [loopDays, nsPerDay] at hn
      show ¬ e < b
      omega
    have hn1 : n = loopDays e (addDay b) := by
      simp only [loopDays, nsPerDay, addDay] at hn ⊢
      have hb' : ¬ e < b := hb
      omega
    obtain ⟨st, e1, e2⟩ := scanFrom_some tpsK tpsV b (addDay b) skip hlen
    obtain ⟨vals, g1, _⟩ := measureDay_some measureFunc st.dk st.dv b dayWidth hN e2
    obtain ⟨days, d1, d2⟩ := ih (addDay b) st.skip
      (m ++ [{ t := b, vals := vals, dk := st.dk, dv := st.dv, idx := st.idx }]) hn1
    refine ⟨{ t := b, vals := vals, dk := st.dk, dv := st.dv, idx := st.idx } :: days, ?_, ?_⟩
    · rw [analyzeLoop, dif_neg hb]
      simp only [e1, g1]
      rw [d1, List.append_assoc, List.singleton_append]
    · rw [List.map_cons, d2, List.range_succ_eq_map, List.map_cons, List.map_map]
      congr 1
      · simp
      · apply List.map_congr_left
        intro k _
        simp only [Function.comp, addDay]
        push_cast
        ring

theorem head_le_getLast (tpsK : List Int) (hne : tpsK ≠ [])
    (hs : tpsK.Pairwise (fun a b => a ≤ b)) : tpsK.head hne ≤ tpsK.getLast hne := by
  cases tpsK with
  | nil => exact absurd rfl hne
  | cons a rest =>
    obtain ⟨h1, _⟩ := List.pairwise_cons.mp hs
    have hm : (a :: rest).getLast hne ∈ a :: rest := List.getLast_mem hne
    rcases List.mem_cons.mp hm with h | h
    · simp only [List.head_cons]; omega
    · exact h1 _ h

/-- The days of `analyzeTPS`: one for every midnight from `truncateTime first` up to the last
timestamp, 24 hours apart. -/
theorem analyzeTrace_days {α : Type} [Zero α] (tpsK : List Int) (tpsV : List α) (dayWidth : Int)
    (measureFunc : List α → α) (hN : 0 < dayWidth) (hlen : tpsK.length = tpsV.length)
    (hne : tpsK ≠ []) :
    ∃ days, analyzeTrace tpsK tpsV dayWidth measureFunc = some days ∧
      days.map (fun d => d.t) =
        (List.range (loopDays (tpsK.getLast hne) (truncateTime (tpsK.head hne)))).map
          (fun (k : Nat) => truncateTime (tpsK.head hne) + (k : Int) * nsPerDay) := by
  obtain ⟨days, d1, d2⟩ := analyzeLoop_days tpsK tpsV dayWidth measureFunc (tpsK.getLast hne) hN
    hlen _ (truncateTime (tpsK.head hne)) 0 [] rfl
  refine ⟨days, ?_, d2⟩
  unfold analyzeTrace
  rw [List.head?_eq_head hne, List.getLast?_eq_getLast _ hne]
  simpa using d1

theorem analyzeTPS_days {α : Type} [Zero α] (tpsK : List Int) (tpsV : List α) (dayWidth : Int)
    (measureFunc : List α → α) (hN : 0 < dayWidth) (hlen : tpsK.length = tpsV.length)
    (hne : tpsK ≠ []) :
    ∃ days, analyzeTPS tpsK tpsV dayWidth measureFunc = some days ∧
      days.map (fun d => d.t) =
        (List.range (loopDays (tpsK.getLast hne) (truncateTime (tpsK.head hne)))).map
          (fun (k : Nat) => truncateTime (tpsK.head hne) + (k : Int) * nsPerDay) := by
  obtain ⟨days, d1, d2⟩ := analyzeTrace_days tpsK tpsV dayWidth measureFunc hN hlen hne
  refine ⟨days.map (fun d => { t := d.t, vals := d.vals }), ?_, ?_⟩
  · unfold analyzeTPS; rw [d1]; rfl
  · rw [← d2, List.map_map]; rfl

/-- On non-decreasing timestamps the day starting at `b` is handed exactly the samples
strictly inside `(b, b + 24h)`, in input order. -/
theorem analyzeLoop_buckets {α : Type} [Zero α] (tpsK : List Int) (tpsV : List α)
    (dayWidth : Int) (measureFunc : List α → α) (e : Int) (hN : 0 < dayWidth)
    (hlen : tpsK.length = tpsV.length) (hs : tpsK.Pairwise (fun a b => a ≤ b)) :
    ∀ (n : Nat) (b : Int) (skip : Nat) (m : List (DayTrace α)), n = loopDays e b →
      (∀ t ∈ tpsK.take skip, t ≤ b) →
      ∃ days, analyzeLoop tpsK tpsV dayWidth measureFunc e b skip m = some (m ++ days) ∧
        days.map (fun d => (d.t, d.dk, d.dv)) = (List.range n).map (fun (k : Nat) =>
          (b + (k : Int) * nsPerDay,
            windowKeys tpsK (b + (k : Int) * nsPerDay) (b + ((k : Int) + 1) * nsPerDay),
            windowValues tpsK tpsV (b + (k : Int) * nsPerDay) (b + ((k : Int) + 1) * nsPerDay))) := by
  intro n
  induction n with
  | zero =>
    intro b skip m hn _
    have hb : After b e := by
      simp only [loopDays, nsPerDay] at hn
      show e < b
      omega
    refine ⟨[], ?_, by simp⟩
    rw [analyzeLoop, dif_pos hb, List.append_nil]
  | succ n ih =>
    intro b skip m hn hinv
    have hb : ¬ After b e := by
      simp only [loopDays, nsPerDay] at hn
      show ¬ e < b
      omega
    have hn1 : n = loopDays e (addDay b) := by
      simp only [loopDays, nsPerDay, addDay] at hn ⊢
      have hb' : ¬ e < b := hb
      omega
    have hle : b ≤ addDay b := by simp only [addDay, nsPerDay]; omega
    obtain ⟨st, e1, e2, e3, e4⟩ := scanFrom_sorted tpsK tpsV b (addDay b) skip hlen hs hle hinv
    have hdk : st.dk.length = st.dv.length := by
      obtain ⟨st2, f1, f2⟩ := scanFrom_some tpsK tpsV b (addDay b) skip hlen
      rw [e1] at f1
      rw [Option.some.inj f1]; exact f2
    obtain ⟨vals, g1, _⟩ := measureDay_some measureFunc st.dk st.dv b dayWidth hN hdk
    obtain ⟨days, d1, d2⟩ := ih (addDay b) st.skip
      (m ++ [{ t := b, vals := vals, dk := st.dk, dv := st.dv, idx := st.idx }]) hn1 e4
    refine ⟨{ t := b, vals := vals, dk := st.dk, dv := st.dv, idx := st.idx } :: days, ?_, ?_⟩
    · rw [analyzeLoop, dif_neg hb]
      simp only [e1, g1]
      rw [d1, List.append_assoc, List.singleton_append]
    · rw [List.map_cons, d2, List.range_succ_eq_map, List.map_cons, List.map_map]
      congr 1
      · simp only [e2, e3, addDay]
        simp
      · apply List.map_congr_left
        intro k _
        simp only [Function.comp, addDay]
        have h1 : b + nsPerDay + (k : Int) * nsPerDay = b + ((k.succ : Nat) : Int) * nsPerDay := by
          push_cast; ring
        have h2 : b + nsPerDay + ((k : Int) + 1) * nsPerDay =
            b + (((k.succ : Nat) : Int) + 1) * nsPerDay := by
          push_cast; ring
        rw [h1, h2]

/-- The buckets of `analyzeTPS` on non-decreasing timestamps: day `k` gets exactly the samples
strictly between its midnight and the next one, so a sample is in the one bucket of its day
unless it lies exactly on a midnight, and then it is in none. -/
theorem analyzeTrace_buckets {α : Type} [Zero α] (tpsK : List Int) (tpsV : List α)
    (dayWidth : Int) (measureFunc : List α → α) (hN : 0 < dayWidth)
    (hlen : tpsK.length = tpsV.length) (hs : tpsK.Pairwise (fun a b => a ≤ b))
    (hne : tpsK ≠ []) :
    ∃ days, analyzeTrace tpsK tpsV dayWidth measureFunc = some days ∧
      days.map (fun d => (d.t, d.dk, d.dv)) =
        (List.range (loopDays (tpsK.getLast hne) (truncateTime (tpsK.head hne)))).map
          (fun (k : Nat) =>
            (truncateTime (tpsK.head hne) + (k : Int) * nsPerDay,
              windowKeys tpsK (truncateTime (tpsK.head hne) + (k : Int) * nsPerDay)
                (truncateTime (tpsK.head hne) + ((k : Int) + 1) * nsPerDay),
              windowValues tpsK tpsV (truncateTime (tpsK.head hne) + (k : Int) * nsPerDay)
                (truncateTime (tpsK.head hne) + ((k : Int) + 1) * nsPerDay))) := by
  obtain ⟨days, d1, d2⟩ := analyzeLoop_buckets tpsK tpsV dayWidth measureFunc (tpsK.getLast hne)
    hN hlen hs _ (truncateTime (tpsK.head hne)) 0 [] rfl (by simp)
  refine ⟨days, ?_, d2⟩
  unfold analyzeTrace
  rw [List.head?_eq_head hne, List.getLast?_eq_getLast _ hne]
  simpa using d1

theorem loopDays_trunc (first last : Int) (h : first ≤ last) :
    ((loopDays last (truncateTime first) : Nat) : Int) =
      (truncateTime last - truncateTime first) / nsPerDay + 1 ∧
    truncateTime first + ((loopDays last (truncateTime first) - 1 : Nat) : Int) * nsPerDay =
      truncateTime last ∧ 0 < loopDays last (truncateTime first) := by
  simp only [loopDays, truncateTime_eq, dayIndex, nsPerDay]
  omega

/-! ## The placement pass -/

theorem placeStep_rowsLe {α : Type} (opts : DrawOptions α) (a b : PlaceState) (d : measuredDay α)
    (h : RowsLe a b) :
    RowsLe (placeStep { opts with BreakMonths := false } a d)
      (placeStep { opts with BreakMonths := true } b d) := by
  obtain ⟨aw, ar, am, ab, ac⟩ := a
  obtain ⟨bw, br, bm, bb, bc⟩ := b
  obtain ⟨h1, h2, h3, h4⟩ := h
  simp only at h1 h2 h3 h4
  subst h1 h2
  unfold placeStep RowsLe
  simp only []
  split_ifs <;>
    refine ⟨rfl, rfl, ?_, ?_⟩ <;>
    first
      | (simp only []; omega)
      | (apply List.rel_append h4
         refine List.Forall₂.cons ⟨?_, rfl, rfl⟩ List.Forall₂.nil
         simp only []; omega)

theorem foldl_placeStep_rowsLe {α : Type} (opts : DrawOptions α) (days : List (measuredDay α)) :
    ∀ (a b : PlaceState), RowsLe a b →
      RowsLe (days.foldl (placeStep { opts with BreakMonths := false }) a)
        (days.foldl (placeStep { opts with BreakMonths := true }) b) := by
  induction days with
  | nil => intro a b h; exact h
  | cons d days ih =>
    intro a b h
    simp only [List.foldl_cons]
    exact ih _ _ (placeStep_rowsLe opts a b d h)

theorem placeStep_rowN_le {α : Type} (opts : DrawOptions α) (st : PlaceState) (d : measuredDay α) :
    st.rowN ≤ (placeStep opts st d).rowN := by
  obtain ⟨w, r, m, mb, cs⟩ := st
  unfold placeStep
  simp only []
  split_ifs <;> simp only [] <;> omega

theorem placeStep_cells {α : Type} (opts : DrawOptions α) (st : PlaceState) (d : measuredDay α) :
    ∃ col, (placeStep opts st d).cells =
      st.cells ++ [{ row := (placeStep opts st d).rowN, col := col, t := d.t }] := by
  obtain ⟨w, r, m, mb, cs⟩ := st
  unfold placeStep
  simp only []
  split_ifs <;> exact ⟨_, rfl⟩

theorem placeStep_rowsSorted {α : Type} (opts : DrawOptions α) (st : PlaceState)
    (d : measuredDay α) (h : RowsSorted st) : RowsSorted (placeStep opts st d) := by
  obtain ⟨h1, h2⟩ := h
  obtain ⟨col, hc⟩ := placeStep_cells opts st d
  have hle := placeStep_rowN_le opts st d
  constructor
  · rw [hc, List.map_append, List.pairwise_append]
    refine ⟨h1, by simp, ?_⟩
    intro x hx y hy
    obtain ⟨c, hc1, hc2⟩ := List.mem_map.mp hx
    simp only [List.map_cons, List.map_nil, List.mem_singleton] at hy
    have := h2 c hc1
    omega
  · intro c hcm
    rw [hc] at hcm
    rcases List.mem_append.mp hcm with h | h
    · have := h2 c h; omega
    · simp only [List.mem_singleton] at h
      rw [h]

theorem foldl_placeStep_rowsSorted {α : Type} (opts : DrawOptions α)
    (days : List (measuredDay α)) :
    ∀ st, RowsSorted st → RowsSorted (days.foldl (placeStep opts) st) := by
  induction days with
  | nil => intro st h; exact h
  | cons d days ih =>
    intro st h
    simp only [List.foldl_cons]
    exact ih _ (placeStep_rowsSorted opts st d h)

/-! ## The sizing pre-pass against the placement pass -/

theorem ite_ne_of {c : Prop} [Decidable c] {a b x : String} (ha : a ≠ x) (hb : b ≠ x) :
    (if c then a else b) ≠ x := by
  split <;> assumption

theorem monthString_ne_empty (m : Int) : monthString m ≠ "" := by
  unfold monthString
  repeat' apply ite_ne_of
  all_goals decide

theorem dayIndex_truncateTime (t : Int) : dayIndex (truncateTime t) = dayIndex t := by
  simp only [truncateTime_eq, dayIndex, nsPerDay]
  omega

theorem Month_truncateTime (t : Int) : Month (truncateTime t) = Month t := by
  simp only [Month, Date, dayIndex_truncateTime]

theorem step_lockStep {α : Type} (opts : DrawOptions α) (hm : opts.BreakMonths = true)
    (hd : opts.BreakMonday = false) (p : PreState) (st : PlaceState) (d : measuredDay α)
    (h : LockStep p st) : LockStep (preStep opts p d) (placeStep opts st d) := by
  obtain ⟨pm, pr⟩ := p
  obtain ⟨w, r, m, mb, cs⟩ := st
  obtain ⟨h1, h2⟩ := h
  simp only at h1 h2
  subst h1 h2
  unfold preStep placeStep LockStep
  simp only [hm, hd, Bool.false_eq_true, if_true, if_false]
  split_ifs <;> simp

theorem foldl_lockStep {α : Type} (opts : DrawOptions α) (hm : opts.BreakMonths = true)
    (hd : opts.BreakMonday = false) (days : List (measuredDay α)) :
    ∀ (p : PreState) (st : PlaceState), LockStep p st →
      LockStep (days.foldl (preStep opts) p) (days.foldl (placeStep opts) st) := by
  induction days with
  | nil => intro p st h; exact h
  | cons d days ih =>
    intro p st h
    simp only [List.foldl_cons]
    exact ih _ _ (step_lockStep opts hm hd p st d h)

theorem first_step_lockStep {α : Type} (opts : DrawOptions α) (hm : opts.BreakMonths = true)
    (hd : opts.BreakMonday = false) (first : Int) (d : measuredDay α)
    (hmonth : Month d.t = Month first) :
    LockStep (preStep opts { currMonth := "", monthRows := 0 } d)
      (placeStep opts
        { currWeek := getWeekNum first, rowN := 0, currMonth := monthString (Month first),
          monthBreaks := 0, cells := [] } d) := by
  have hne : ¬ ("" = monthString (Month first)) := fun h => monthString_ne_empty _ h.symm
  unfold preStep placeStep LockStep
  simp only [hm, hd, hmonth, Bool.false_eq_true, if_true, if_false]
  split_ifs <;> simp_all

theorem placeStep_noBreaks {α : Type} (opts : DrawOptions α) (hm : opts.BreakMonths = false)
    (st : PlaceState) (d : measuredDay α) :
    (placeStep opts st d).monthBreaks = st.monthBreaks := by
  obtain ⟨w, r, m, mb, cs⟩ := st
  unfold placeStep
  simp only [hm, Bool.false_eq_true, if_true, if_false]
  split_ifs <;> rfl

theorem foldl_noBreaks {α : Type} (opts : DrawOptions α) (hm : opts.BreakMonths = false)
    (days : List (measuredDay α)) :
    ∀ st : PlaceState, (days.foldl (placeStep opts) st).monthBreaks = st.monthBreaks := by
  induction days with
  | nil => intro st; rfl
  | cons d days ih =>
    intro st
    simp only [List.foldl_cons]
    rw [ih, placeStep_noBreaks opts hm]

/-- A run of `DrawTPS` on equal-length, non-empty, non-decreasing input with a positive day
width returns, and its first day is the day of the first sample. -/
theorem DrawTPS_ok {α : Type} [Zero α] (first : Int) (rest : List Int) (tpsV : List α)
    (opts : DrawOptions α) (hlen : (first :: rest).length = tpsV.length)
    (hs : (first :: rest).Pairwise (fun a b => a ≤ b)) (hW : 0 < uintToInt opts.DayW) :
    ∃ d0 ds, DrawTPS (first :: rest) tpsV opts = Except.ok
        { days := d0 :: ds, monthRows := sizingMonthRows opts first (d0 :: ds),
          sizedRows := (d0 :: ds).length / 7 + sizingMonthRows opts first (d0 :: ds),
          place := mainPass opts first (d0 :: ds) } ∧ d0.t = truncateTime first := by
  obtain ⟨days, e1, e2⟩ := analyzeTPS_days (first :: rest) tpsV (uintToInt opts.DayW)
    opts.MeasureFunc hW hlen (List.cons_ne_nil _ _)
  have hle := head_le_getLast (first :: rest) (List.cons_ne_nil _ _) hs
  obtain ⟨_, _, hpos⟩ := loopDays_trunc _ _ hle
  obtain ⟨n, hn⟩ := Nat.exists_eq_succ_of_ne_zero (Nat.pos_iff_ne_zero.mp hpos)
  rw [hn, List.range_succ_eq_map] at e2
  cases days with
  | nil => simp at e2
  | cons d0 ds =>
    refine ⟨d0, ds, ?_, ?_⟩
    · unfold DrawTPS
      rw [if_neg (by simp [hlen])]
      simp only [e1]
    · simp only [List.map_cons, List.cons.injEq] at e2
      simpa using e2.1

theorem DrawTPS_monthRows {α : Type} [Zero α] (first : Int) (rest : List Int) (tpsV : List α)
    (opts : DrawOptions α) (hlen : (first :: rest).length = tpsV.length)
    (hs : (first :: rest).Pairwise (fun a b => a ≤ b)) (hW : 0 < uintToInt opts.DayW) :
    ∃ d, DrawTPS (first :: rest) tpsV opts = Except.ok d ∧
      (opts.BreakMonths = true → opts.BreakMonday = false →
        d.monthRows = d.place.monthBreaks + 1 + (if Day first ≠ 1 then 1 else 0)) ∧
      (opts.BreakMonths = false →
        d.place.monthBreaks = 0 ∧ d.monthRows = (if Day first ≠ 1 then 1 else 0)) := by
  obtain ⟨d0, ds, e1, e2⟩ := DrawTPS_ok first rest tpsV opts hlen hs hW
  refine ⟨_, e1, ?_, ?_⟩
  · intro hm hd
    have hmonth : Month d0.t = Month first := by rw [e2, Month_truncateTime]
    have h1 := first_step_lockStep opts hm hd first d0 hmonth
    have h2 := foldl_lockStep opts hm hd ds _ _ h1
    simp only [sizingMonthRows, mainPass, hm, if_true, List.foldl_cons]
    rw [h2.2]
    split_ifs <;> rfl
  · intro hm
    constructor
    · simp only [mainPass]
      rw [foldl_noBreaks opts hm]
    · simp only [sizingMonthRows, hm, Bool.false_eq_true, if_false]

/-! ## `percentileSlice` -/

/-- Below 100 elements the index `0.01 * n` is a non-integer at most 1. -/
theorem percentileIndex_small :
    ∀ n : Fin 100, 2 ≤ n.val →
      percentileIndex n.val ≠ ((truncToInt (percentileIndex n.val) : Int) : ℚ) ∧
        ¬ 1 < percentileIndex n.val := by
  decide!

theorem percentileSlice_small (c : List ℚ) (h2 : 2 ≤ c.length) (h100 : c.length < 100) :
    percentileSlice c = some 0 := by
  have hl : (c.insertionSort (fun x y => x ≤ y)).length = c.length := List.length_insertionSort _ c
  obtain ⟨h3, h4⟩ := percentileIndex_small ⟨c.length, h100⟩ h2
  unfold percentileSlice
  rw [if_neg (by omega), if_neg (by omega)]
  simp only [hl]
  rw [if_neg h3, if_neg h4]

/-! ## The precondition failures of `DrawTPS` -/

theorem DrawTPS_failures {α : Type} [Zero α] (tpsK : List Int) (tpsV : List α)
    (opts : DrawOptions α) :
    (DrawTPS tpsK tpsV opts = Except.error "tpsK and tpsV not same length" ↔
        tpsK.length ≠ tpsV.length) ∧
      (DrawTPS tpsK tpsV opts = Except.error "Nothing to draw" ↔ tpsK = [] ∧ tpsV = []) := by
  unfold DrawTPS
  by_cases h : tpsK.length ≠ tpsV.length
  · rw [if_pos h]
    refine ⟨⟨fun _ => h, fun _ => rfl⟩, ⟨fun h1 => ?_, fun h1 => ?_⟩⟩
    · exact absurd (Except.error.inj h1) (by decide)
    · exact absurd (by rw [h1.1, h1.2]; rfl) h
  · rw [if_neg h]
    have h' : tpsK.length = tpsV.length := not_not.mp h
    cases tpsK with
    | nil =>
      have hv : tpsV = [] := List.length_eq_zero.mp h'.symm
      refine ⟨⟨fun h1 => ?_, fun h1 => absurd h' h1⟩, ⟨fun _ => ⟨rfl, hv⟩, fun _ => rfl⟩⟩
      exact absurd (Except.error.inj h1) (by decide)
    | cons first rest =>
      simp only []
      cases analyzeTPS (first :: rest) tpsV (uintToInt opts.DayW) opts.MeasureFunc with
      | none =>
        refine ⟨⟨fun h1 => ?_, fun h1 => absurd h' h1⟩, ⟨fun h1 => ?_, fun h1 => ?_⟩⟩
        · exact absurd (Except.error.inj h1) (by decide)
        · exact absurd (Except.error.inj h1) (by decide)
        · exact absurd h1.1 (List.cons_ne_nil _ _)
      | some days =>
        refine ⟨⟨fun h1 => ?_, fun h1 => absurd h' h1⟩, ⟨fun h1 => ?_, fun h1 => ?_⟩⟩
        · exact Except.noConfusion h1
        · exact Except.noConfusion h1
        · exact absurd h1.1 (List.cons_ne_nil _ _)

/-- The result of `DrawTPS` once the days of `analyzeTPS` are known. -/
theorem DrawTPS_of_days {α : Type} [Zero α] (first : Int) (rest : List Int) (tpsV : List α)
    (opts : DrawOptions α) (days : List (measuredDay α))
    (h : analyzeTPS (first :: rest) tpsV (uintToInt opts.DayW) opts.MeasureFunc = some days)
    (hlen : (first :: rest).length = tpsV.length) :
    DrawTPS (first :: rest) tpsV opts = Except.ok
      { days := days, monthRows := sizingMonthRows opts first days,
        sizedRows := days.length / 7 + sizingMonthRows opts first days,
        place := mainPass opts first days } := by
  unfold DrawTPS
  rw [if_neg (by simp [hlen])]
  simp only [h]

theorem chain_map_range (g : Nat → Int) (d : Int) (hg : ∀ k, g (k + 1) = g k + d) :
    ∀ n, List.Chain' (fun a b => b = a + d) ((List.range n).map g) := by
  intro n
  rw [List.chain'_map]
  cases n with
  | zero => simp
  | succ n =>
    rw [List.chain'_range_succ]
    intro m _
    exact hg m

/-- C1: for a non-empty sample sequence with non-decreasing timestamps and a positive day
width, `analyzeTPS` returns, with exactly
`(truncateTime last - truncateTime first) / 24h + 1` days: the first starts at
`truncateTime first`, each next one starts 24 hours after the one before, the last starts at
`truncateTime last`; a day is produced whether or not it holds samples. -/
theorem analyzeTPS_day_sequence {α : Type} [Zero α] (tpsK : List Int) (tpsV : List α)
    (dayWidth : Int) (measureFunc : List α → α) (first last : Int)
    (hfirst : tpsK.head? = some first) (hlast : tpsK.getLast? = some last)
    (hlen : tpsK.length = tpsV.length) (hs : tpsK.Pairwise (fun a b => a ≤ b))
    (hN : 0 < dayWidth) :
    ∃ days, analyzeTPS tpsK tpsV dayWidth measureFunc = some days ∧
      (days.length : Int) = (truncateTime last - truncateTime first) / nsPerDay + 1 ∧
      days.map (fun d => d.t) =
        (List.range days.length).map (fun (k : Nat) => truncateTime first + (k : Int) * nsPerDay) ∧
      (days.map (fun d => d.t)).head? = some (truncateTime first) ∧
      (days.map (fun d => d.t)).getLast? = some (truncateTime last) ∧
      List.Chain' (fun a b => b = a + nsPerDay) (days.map (fun d => d.t)) := by
  have hne : tpsK ≠ [] := by
    intro h; rw [h] at hfirst; simp at hfirst
  have h1 : tpsK.head hne = first := by
    rw [List.head?_eq_head hne] at hfirst; exact Option.some.inj hfirst
  have h2 : tpsK.getLast hne = last := by
    rw [List.getLast?_eq_getLast _ hne] at hlast; exact Option.some.inj hlast
  obtain ⟨days, e1, e2⟩ := analyzeTPS_days tpsK tpsV dayWidth measureFunc hN hlen hne
  have hle := head_le_getLast tpsK hne hs
  rw [h1, h2] at e2 hle
  obtain ⟨c1, c2, c3⟩ := loopDays_trunc first last hle
  have hl : days.length = loopDays last (truncateTime first) := by
    have := congrArg List.length e2
    simpa using this
  refine ⟨days, e1, ?_, ?_, ?_, ?_, ?_⟩
  · rw [hl]; exact c1
  · rw [hl]; exact e2
  · rw [e2]
    obtain ⟨n, hn⟩ := Nat.exists_eq_succ_of_ne_zero (Nat.pos_iff_ne_zero.mp c3)
    rw [hn, List.range_succ_eq_map]
    simp
  · rw [e2]
    obtain ⟨n, hn⟩ := Nat.exists_eq_succ_of_ne_zero (Nat.pos_iff_ne_zero.mp c3)
    rw [hn] at c2 ⊢
    rw [List.range_succ, List.map_append, List.map_singleton, List.getLast?_concat]
    have c4 : truncateTime first + ((n : Nat) : Int) * nsPerDay = truncateTime last := c2
    rw [c4]
  · rw [e2]
    apply chain_map_range
    intro k
    push_cast
    ring

/-- Witness of C1: two samples three days apart give four days, 24 hours apart. -/
theorem analyzeTPS_day_sequence_witness :
    ∃ days, analyzeTPS [1, 259200000000007] [(20 : ℚ), 21] 4 List.sum = some days ∧
      days.map (fun d => d.t) = [0, 86400000000000, 172800000000000, 259200000000000] := by
  obtain ⟨days, e1, e2, e3, _⟩ := analyzeTPS_day_sequence [1, 259200000000007] [(20 : ℚ), 21] 4
    List.sum 1 259200000000007 rfl rfl rfl (by decide) (by decide)
  refine ⟨days, e1, ?_⟩
  have hl : days.length = 4 := by
    have h4 : (truncateTime 259200000000007 - truncateTime 1) / nsPerDay + 1 = 4 := by decide
    rw [h4] at e2
    exact_mod_cast e2
  rw [e3, hl]
  decide

theorem mainPass_cells_t {α : Type} (opts : DrawOptions α) (days : List (measuredDay α)) :
    ∀ st : PlaceState, ((days.foldl (placeStep opts) st).cells.map (fun c => c.t)) =
      st.cells.map (fun c => c.t) ++ days.map (fun d => d.t) := by
  induction days with
  | nil => intro st; simp
  | cons d days ih =>
    intro st
    obtain ⟨col, hc⟩ := placeStep_cells opts st d
    simp only [List.foldl_cons]
    rw [ih, hc]
    simp

/-- C2 (the code loses a sample): of three samples at 23:59:59, 00:00:00 and 00:00:01
around a midnight, `analyzeTPS` hands sample 0 to the first day and sample 2 to the second
day; sample 1, exactly on the day boundary, is in no day's `dk`/`dv`. -/
theorem analyzeTPS_drops_midnight_sample :
    (analyzeTrace [86399000000000, 86400000000000, 86401000000000] [(20 : ℚ), 19, 18] 1
        List.sum).map (List.map (fun d => (d.t, d.dk, d.dv, d.idx))) =
      some [(0, [86399000000000], [20], [0]), (86400000000000, [86401000000000], [18], [2])] := by
  simp [analyzeTrace, analyzeLoop, scanFrom, scanWindow, measureDay, measureLoop, truncateTime_eq,
    dayIndex, addDay, nsPerDay]

/-- C3: for a positive day width, any reducer, any day start and any non-empty sample list
with non-decreasing timestamps, `measureDay` returns exactly `dayWidth` scalars and the
`s`-th is the reducer applied to the values, in input order, of exactly the samples strictly
inside `(b + s*width, b + (s+1)*width)` with `width = 24h / dayWidth` rounded down: the
cursor scan agrees with filtering the whole day for every slice. -/
theorem measureDay_scan_eq_filter {α : Type} [Zero α] (dayWidth : Int)
    (measureFunc : List α → α) (b : Int) (tpsK : List Int) (tpsV : List α)
    (hN : 0 < dayWidth) (hne : tpsK ≠ []) (hlen : tpsK.length = tpsV.length)
    (hs : tpsK.Pairwise (fun x y => x ≤ y)) :
    ∃ ret, measureDay tpsK tpsV b dayWidth measureFunc = some ret ∧
      (ret.length : Int) = dayWidth ∧
      ret = measureDaySpec measureFunc tpsK tpsV b dayWidth ∧
      ∀ s : Nat, (s : Int) < dayWidth →
        ret.get? s = some (measureFunc (windowValues tpsK tpsV
          (b + (s : Int) * (nsPerDay / dayWidth)) (b + ((s : Int) + 1) * (nsPerDay / dayWidth)))) := by
  refine ⟨_, measureDay_eq_spec measureFunc tpsK tpsV b dayWidth hN hne hlen hs, ?_, rfl, ?_⟩
  · simp only [measureDaySpec, List.length_map, List.length_range]
    omega
  · intro s hsN
    have h1 : s < dayWidth.toNat := by omega
    simp only [measureDaySpec]
    rw [List.get?_eq_getElem?, List.getElem?_map, List.getElem?_range h1]
    rfl

/-- Witness of C3: four samples, one of them on a slice boundary, in four slices. -/
theorem measureDay_scan_eq_filter_witness :
    ∃ ret, measureDay [1, 21600000000000, 21600000000001, 50000000000000] [(1 : ℚ), 2, 3, 4] 0 4
        List.sum = some ret ∧ ret = [1, 3, 4, 0] := by
  obtain ⟨ret, e1, _, e3, _⟩ := measureDay_scan_eq_filter 4 List.sum 0
    [1, 21600000000000, 21600000000001, 50000000000000] [(1 : ℚ), 2, 3, 4]
    (by decide) (by decide) rfl (by decide)
  refine ⟨ret, e1, ?_⟩
  rw [e3]
  decide!

/-- C4 (as amended): on a non-empty day with non-decreasing timestamps every entry whose
slice holds no sample is the reducer applied to the empty list; on a day with no samples
`measureDay` never calls the reducer and returns `dayWidth` zeros. -/
theorem measureDay_empty_slices {α : Type} [Zero α] (dayWidth : Int)
    (measureFunc : List α → α) (b : Int) (tpsK : List Int) (tpsV : List α)
    (hN : 0 < dayWidth) (hlen : tpsK.length = tpsV.length)
    (hs : tpsK.Pairwise (fun x y => x ≤ y)) :
    (tpsK ≠ [] → ∃ ret, measureDay tpsK tpsV b dayWidth measureFunc = some ret ∧
      ∀ s : Nat, (s : Int) < dayWidth →
        windowValues tpsK tpsV (b + (s : Int) * (nsPerDay / dayWidth))
          (b + ((s : Int) + 1) * (nsPerDay / dayWidth)) = [] →
        ret.get? s = some (measureFunc [])) ∧
    measureDay ([] : List Int) ([] : List α) b dayWidth measureFunc =
      some (List.replicate dayWidth.toNat 0) := by
  constructor
  · intro hne
    refine ⟨_, measureDay_eq_spec measureFunc tpsK tpsV b dayWidth hN hne hlen hs, ?_⟩
    intro s hsN hempty
    have h1 : s < dayWidth.toNat := by omega
    simp only [measureDaySpec]
    rw [List.get?_eq_getElem?, List.getElem?_map, List.getElem?_range h1]
    simp only [Option.map_some', sliceSpec, hempty]
  · unfold measureDay
    rw [if_neg (by omega)]
    simp

/-- Witness of C4: the last of four slices is empty and holds the reducer's value on `[]`,
here 7. -/
theorem measureDay_empty_slices_witness :
    ∃ ret, measureDay [1, 21600000000000, 21600000000001, 50000000000000] [(1 : ℚ), 2, 3, 4] 0 4
        (fun l => l.sum + 7) = some ret ∧ ret.get? 3 = some 7 := by
  obtain ⟨ret, e1, e2⟩ := (measureDay_empty_slices 4 (fun l : List ℚ => l.sum + 7) 0
    [1, 21600000000000, 21600000000001, 50000000000000] [(1 : ℚ), 2, 3, 4]
    (by decide) rfl (by decide)).1 (by decide)
  refine ⟨ret, e1, ?_⟩
  have := e2 3 (by decide) (by decide)
  rw [this]
  simp

/-- Counterexample to C4: for a day without samples and the reducer that is constantly 1,
the only slice holds 0, not the reducer's value on the empty list. -/
theorem measureDay_empty_day_ignores_reducer :
    measureDay ([] : List Int) ([] : List ℚ) 0 1 (fun _ => 1) = some [0] ∧
      [(0 : ℚ)].get? 0 ≠ some ((fun _ : List ℚ => (1 : ℚ)) []) := by
  constructor
  · simp [measureDay]
  · decide

/-- C5 (the code repeats a week number): 2021-01-03 lies in ISO week 2020-W53 and
2021-01-04 in 2021-W01, yet `getWeekNum` gives 105382 for both; for samples on
2020-12-28 and 2021-01-04 the placement pass therefore starts no new row on 2021-01-04 and
puts that Monday on row 0, column 0, where 2020-12-28 already is. -/
theorem getWeekNum_repeats_across_2020_2021 :
    ISOWeek 1609675200000000000 = (2020, 53) ∧ ISOWeek 1609761600000000000 = (2021, 1) ∧
    getWeekNum 1609675200000000000 = 105382 ∧ getWeekNum 1609761600000000000 = 105382 ∧
    placedAt (DrawTPS [1609156800000000000, 1609761600000000000] [(20 : ℚ), 20]
      { DayW := 1, BreakMonths := false, BreakMonday := false, MeasureFunc := List.sum }) =
      some [(0, 0), (0, 1), (0, 2), (0, 3), (0, 4), (0, 5), (0, 6), (0, 0)] := by
  have h : analyzeTPS [1609156800000000000, 1609761600000000000] [(20 : ℚ), 20] (uintToInt 1)
      List.sum = some [⟨1609113600000000000, [20]⟩, ⟨1609200000000000000, [0]⟩,
        ⟨1609286400000000000, [0]⟩, ⟨1609372800000000000, [0]⟩, ⟨1609459200000000000, [0]⟩,
        ⟨1609545600000000000, [0]⟩, ⟨1609632000000000000, [0]⟩,
        ⟨1609718400000000000, [20]⟩] := by
    simp [analyzeTPS, analyzeTrace, analyzeLoop, scanFrom, scanWindow, measureDay, measureLoop,
      truncateTime_eq, dayIndex, addDay, nsPerDay, uintToInt]
  refine ⟨by decide!, by decide!, by decide!, by decide!, ?_⟩
  rw [DrawTPS_of_days _ _ _
    { DayW := 1, BreakMonths := false, BreakMonday := false, MeasureFunc := List.sum } _ h rfl]
  decide!

/-- C6 (as amended): `percentileSlice` returns 0 for the empty collection, the single value
for a one-element collection, and 0 for every collection of at least 2 and fewer than 100
elements, where the index `0.01 * count` is a non-integer not above 1. -/
theorem percentileSlice_small_counts (c : List ℚ) (h2 : 2 ≤ c.length) (h100 : c.length < 100) :
    percentileSlice [] = some 0 ∧ (∀ x : ℚ, percentileSlice [x] = some x) ∧
      percentileSlice c = some 0 := by
  refine ⟨rfl, ?_, percentileSlice_small c h2 h100⟩
  intro x
  simp [percentileSlice, sliceAt]

/-- Witness of C6 as amended, at the collection {5.0, 3.0}. -/
theorem percentileSlice_small_counts_witness :
    percentileSlice [] = some 0 ∧ (∀ x : ℚ, percentileSlice [x] = some x) ∧
      percentileSlice [5, 3] = some 0 :=
  percentileSlice_small_counts [5, 3] (by decide) (by decide)

/-- Counterexample to C6: for {5.0, 3.0} the result is 0, not the minimum 3.0. -/
theorem percentileSlice_pair_is_not_minimum :
    percentileSlice [5, 3] = some 0 ∧ percentileSlice [5, 3] ≠ some 3 := by
  have h : percentileSlice [5, 3] = some 0 := percentileSlice_small [5, 3] (by decide) (by decide)
  refine ⟨h, ?_⟩
  rw [h]
  decide

/-- C7: `DrawTPS` panics with "tpsK and tpsV not same length" exactly when the two lengths
differ and with "Nothing to draw" exactly when both sequences are empty, whatever the
options are (the checks come before `analyzeTPS`); for equal-length non-empty input it
raises neither. -/
theorem DrawTPS_precondition_failures {α : Type} [Zero α] (tpsK : List Int) (tpsV : List α)
    (opts : DrawOptions α) :
    (DrawTPS tpsK tpsV opts = Except.error "tpsK and tpsV not same length" ↔
        tpsK.length ≠ tpsV.length) ∧
      (DrawTPS tpsK tpsV opts = Except.error "Nothing to draw" ↔ tpsK = [] ∧ tpsV = []) ∧
      (tpsK.length = tpsV.length → tpsK ≠ [] →
        DrawTPS tpsK tpsV opts ≠ Except.error "tpsK and tpsV not same length" ∧
          DrawTPS tpsK tpsV opts ≠ Except.error "Nothing to draw") := by
  obtain ⟨h1, h2⟩ := DrawTPS_failures tpsK tpsV opts
  refine ⟨h1, h2, ?_⟩
  intro hl hne
  exact ⟨fun h => (h1.mp h) hl, fun h => hne (h2.mp h).1⟩

/-- C8: for any day sequence, any first timestamp and any `BreakMonday`, the placement pass
with `BreakMonths` ends on a row at least as large as without it, gives every day a row at
least as large (same column, same day), and within one run places one cell per day, in
order, on rows that never decrease and never exceed the final `rowN`. -/
theorem breakMonths_rows_monotone {α : Type} (opts : DrawOptions α) (first : Int)
    (days : List (measuredDay α)) :
    (mainPass { opts with BreakMonths := false } first days).rowN ≤
        (mainPass { opts with BreakMonths := true } first days).rowN ∧
      List.Forall₂ (fun c d => c.row ≤ d.row ∧ c.col = d.col ∧ c.t = d.t)
        (mainPass { opts with BreakMonths := false } first days).cells
        (mainPass { opts with BreakMonths := true } first days).cells ∧
      (mainPass opts first days).cells.map (fun c => c.t) = days.map (fun d => d.t) ∧
      ((mainPass opts first days).cells.map (fun c => c.row)).Pairwise (fun x y => x ≤ y) ∧
      ∀ c ∈ (mainPass opts first days).cells, c.row ≤ (mainPass opts first days).rowN := by
  have h1 := foldl_placeStep_rowsLe opts days
    { currWeek := getWeekNum first, rowN := 0, currMonth := monthString (Month first),
      monthBreaks := 0, cells := [] }
    { currWeek := getWeekNum first, rowN := 0, currMonth := monthString (Month first),
      monthBreaks := 0, cells := [] }
    ⟨rfl, rfl, le_refl _, List.Forall₂.nil⟩
  have h2 := foldl_placeStep_rowsSorted opts days
    { currWeek := getWeekNum first, rowN := 0, currMonth := monthString (Month first),
      monthBreaks := 0, cells := [] }
    ⟨by simp, by simp⟩
  have h3 := mainPass_cells_t opts days
    { currWeek := getWeekNum first, rowN := 0, currMonth := monthString (Month first),
      monthBreaks := 0, cells := [] }
  exact ⟨h1.2.2.1, h1.2.2.2, by simpa using h3, h2.1, h2.2⟩

/-- C9 (as amended): for non-empty, non-decreasing samples and a positive day width
`DrawTPS` returns; with `BreakMonths` set and `BreakMonday` unset, `monthRows` is the number
of month-change increments of `rowN` in the placement pass, plus one for the month of the
first day, plus one more when the first sample is not on the first day of its month; with
`BreakMonths` unset the placement pass makes no such increment and `monthRows` is one when
the first sample is not on the first day of its month and zero otherwise. -/
theorem sizing_monthRows_vs_placement {α : Type} [Zero α] (first : Int) (rest : List Int)
    (tpsV : List α) (opts : DrawOptions α) (hlen : (first :: rest).length = tpsV.length)
    (hs : (first :: rest).Pairwise (fun a b => a ≤ b)) (hW : 0 < uintToInt opts.DayW) :
    ∃ d, DrawTPS (first :: rest) tpsV opts = Except.ok d ∧
      (opts.BreakMonths = true → opts.BreakMonday = false →
        d.monthRows = d.place.monthBreaks + 1 + (if Day first ≠ 1 then 1 else 0)) ∧
      (opts.BreakMonths = false →
        d.place.monthBreaks = 0 ∧ d.monthRows = (if Day first ≠ 1 then 1 else 0)) :=
  DrawTPS_monthRows first rest tpsV opts hlen hs hW

/-- Witness of C9 as amended: samples on 1970-01-30 and 1970-02-02. -/
theorem sizing_monthRows_vs_placement_witness :
    ∃ d, DrawTPS [2548800000000000, 2808000000000000] [(20 : ℚ), 20]
        { DayW := 1, BreakMonths := true, BreakMonday := false, MeasureFunc := List.sum } =
          Except.ok d ∧
      d.monthRows = d.place.monthBreaks + 1 + 1 := by
  obtain ⟨d, e1, e2, _⟩ := sizing_monthRows_vs_placement 2548800000000000 [2808000000000000]
    [(20 : ℚ), 20]
    { DayW := 1, BreakMonths := true, BreakMonday := false, MeasureFunc := List.sum }
    rfl (by decide) (by decide)
  refine ⟨d, e1, ?_⟩
  have h := e2 rfl rfl
  have hd : Day 2548800000000000 ≠ 1 := by decide
  rw [if_pos hd] at h
  exact h

/-- Counterexample to C9, three inputs on which the pre-pass count differs from the number of
month-change increments of the placement pass: one sample on 1970-01-01 with `BreakMonths`
(`monthRows = 1`, no increment: the first month is counted); one sample on 1970-01-02
without `BreakMonths` (`monthRows = 1`, no increment: the first sample is not on the 1st);
samples on 1970-01-31 and 1970-02-02 with `BreakMonths` and `BreakMonday` (`monthRows = 2`,
one increment). -/
theorem sizing_counts_first_month :
    monthRowsAndBreaks (DrawTPS [43200000000000] [(20 : ℚ)]
      { DayW := 1, BreakMonths := true, BreakMonday := false, MeasureFunc := List.sum }) =
      some (1, 0) ∧
    monthRowsAndBreaks (DrawTPS [129600000000000] [(20 : ℚ)]
      { DayW := 1, BreakMonths := false, BreakMonday := false, MeasureFunc := List.sum }) =
      some (1, 0) ∧
    monthRowsAndBreaks (DrawTPS [2635200000000000, 2808000000000000] [(20 : ℚ), 20]
      { DayW := 1, BreakMonths := true, BreakMonday := true, MeasureFunc := List.sum }) =
      some (2, 1) := by
  have h : analyzeTPS [43200000000000] [(20 : ℚ)] (uintToInt 1) List.sum =
      some [⟨0, [20]⟩] := by
    simp [analyzeTPS, analyzeTrace, analyzeLoop, scanFrom, scanWindow, measureDay, measureLoop,
      truncateTime_eq, dayIndex, addDay, nsPerDay, uintToInt]
  have h1 : analyzeTPS [129600000000000] [(20 : ℚ)] (uintToInt 1) List.sum =
      some [⟨86400000000000, [20]⟩] := by
    simp [analyzeTPS, analyzeTrace, analyzeLoop, scanFrom, scanWindow, measureDay, measureLoop,
      truncateTime_eq, dayIndex, addDay, nsPerDay, uintToInt]
  have h2 : analyzeTPS [2635200000000000, 2808000000000000] [(20 : ℚ), 20] (uintToInt 1)
      List.sum = some [⟨2592000000000000, [20]⟩, ⟨2678400000000000, [0]⟩,
        ⟨2764800000000000, [20]⟩] := by
    simp [analyzeTPS, analyzeTrace, analyzeLoop, scanFrom, scanWindow, measureDay, measureLoop,
      truncateTime_eq, dayIndex, addDay, nsPerDay, uintToInt]
  rw [DrawTPS_of_days _ _ _
    { DayW := 1, BreakMonths := true, BreakMonday := false, MeasureFunc := List.sum } _ h rfl,
    DrawTPS_of_days _ _ _
    { DayW := 1, BreakMonths := false, BreakMonday := false, MeasureFunc := List.sum } _ h1 rfl,
    DrawTPS_of_days _ _ _
    { DayW := 1, BreakMonths := true, BreakMonday := true, MeasureFunc := List.sum } _ h2 rfl]
  decide!

/-- C10 (the code sizes too few rows): for samples on 1970-01-01 (a Thursday) and
1970-01-05 (the next Monday), with `BreakMonths` set and `BreakMonday` unset, the height is
sized for `5/7 + 1 = 1` row while the placement pass puts cells on 2 rows; for one sample
on 1970-01-01 with `BreakMonths` unset it is sized for 0 rows while 1 row is used. -/
theorem sized_rows_below_used_rows :
    sizedAndUsedRows (DrawTPS [43200000000000, 388800000000000] [(20 : ℚ), 20]
      { DayW := 1, BreakMonths := true, BreakMonday := false, MeasureFunc := List.sum }) =
      some (1, 2) ∧
    sizedAndUsedRows (DrawTPS [43200000000000] [(20 : ℚ)]
      { DayW := 1, BreakMonths := false, BreakMonday := false, MeasureFunc := List.sum }) =
      some (0, 1) := by
  have h : analyzeTPS [43200000000000, 388800000000000] [(20 : ℚ), 20] (uintToInt 1) List.sum =
      some [⟨0, [20]⟩, ⟨86400000000000, [0]⟩, ⟨172800000000000, [0]⟩, ⟨259200000000000, [0]⟩,
        ⟨345600000000000, [20]⟩] := by
    simp [analyzeTPS, analyzeTrace, analyzeLoop, scanFrom, scanWindow, measureDay, measureLoop,
      truncateTime_eq, dayIndex, addDay, nsPerDay, uintToInt]
  have h1 : analyzeTPS [43200000000000] [(20 : ℚ)] (uintToInt 1) List.sum =
      some [⟨0, [20]⟩] := by
    simp [analyzeTPS, analyzeTrace, analyzeLoop, scanFrom, scanWindow, measureDay, measureLoop,
      truncateTime_eq, dayIndex, addDay, nsPerDay, uintToInt]
  rw [DrawTPS_of_days _ _ _
    { DayW := 1, BreakMonths := true, BreakMonday := false, MeasureFunc := List.sum } _ h rfl,
    DrawTPS_of_days _ _ _
    { DayW := 1, BreakMonths := false, BreakMonday := false, MeasureFunc := List.sum } _ h1 rfl]
  decide!

end TpsDrawer
